import Mathlib

/-!
Verification of the concurrent job-processing engine of the photo-meta
repository: path locking (filelock.go), the cancellation manager, progress
tracker and worker pool (concurrent.go), and the orchestrator
`ProcessJobsWithCancellation` (signal-handling file).

Pure functions are embedded directly; the stateful lock manager is embedded
as a trace of lock/unlock events interpreted over an explicit lock-table
state; the worker loop is embedded as a deterministic function of the
sequence of channel/cancellation events it observes.  Wall-clock readings
(`time.Since`) are passed in as explicit parameters; Go `int`/`int64`
arithmetic on counters and durations is modelled by `Int` (no overflow is
relevant at the values involved), and Go integer division (truncation
toward zero) by `Int.tdiv`.
-/

namespace PhotoMeta

/-! ## Go path handling: `filepath.Clean` and `filepath.Join` (unix rules),
as used by the lock manager to normalize lock keys. -/

/-- One pass of Go `filepath.Clean`'s element processing: `acc` is the stack
of output elements (most recent first).  Empty and `.` elements are dropped;
`..` pops a normal element, is dropped at the root when `rooted`, and
accumulates when not rooted and nothing can be popped (Go's `dotdot`
marker: accumulated `..` elements sit at the bottom of the stack and are
never popped). -/
def cleanParts (rooted : Bool) : List String → List String → List String
  | [], acc => acc.reverse
  | s :: rest, acc =>
    if s = "" ∨ s = "." then cleanParts rooted rest acc
    else if s = ".." then
      if acc = [] then cleanParts rooted rest (if rooted then [] else [".."])
      else if acc.headI = ".." then cleanParts rooted rest (".." :: acc)
      else cleanParts rooted rest acc.tail
    else cleanParts rooted rest (s :: acc)

/-- Join a list of path elements with `/` separators. -/
def joinParts : List String → String
  | [] => ""
  | [a] => a
  | a :: b :: rest => a ++ "/" ++ joinParts (b :: rest)

/-- Split a character sequence at `/` separators; `cur` accumulates the
current element in reverse. -/
def splitSlashAux : List Char → List Char → List String
  | [], cur => [String.mk cur.reverse]
  | c :: rest, cur =>
    if c = '/' then String.mk cur.reverse :: splitSlashAux rest []
    else splitSlashAux rest (c :: cur)

/-- The `/`-separated elements of a path. -/
def splitSlash (p : String) : List String := splitSlashAux p.data []

/-- Whether the path is rooted (Go: `path[0] == '/'`). -/
def isRooted (p : String) : Bool :=
  match p.data with
  | [] => false
  | c :: _ => decide (c = '/')

/-- Go `filepath.Clean` for unix paths: lexically simplify the path,
returning `.` for the empty result of a relative path and keeping the
leading `/` of a rooted path. -/
def cleanPath (p : String) : String :=
  if p = "" then "."
  else
    let rooted := isRooted p
    let parts := cleanParts rooted (splitSlash p) []
    if rooted then "/" ++ joinParts parts
    else if parts = [] then "."
    else joinParts parts

/-- Go `filepath.Join` of two elements: empty elements are skipped and the
result is `Clean`ed; the join of two empty strings is empty. -/
def goJoin (a b : String) : String :=
  if a = "" then (if b = "" then "" else cleanPath b)
  else if b = "" then cleanPath a
  else cleanPath (a ++ "/" ++ b)

/-! Basic facts about `cleanPath`: every element it produces is a nonempty
string, hence its result is never the empty string. -/

theorem joinParts_ne_empty {l : List String} (hl : l ≠ []) (h : ∀ x ∈ l, x ≠ "") :
    joinParts l ≠ "" := by
  match l with
  | [] => exact absurd rfl hl
  | [a] => simpa [joinParts] using h a (by simp)
  | a :: b :: rest =>
    simp only [joinParts]
    intro hcontra
    have h1 := congrArg String.length hcontra
    rw [String.length_append, String.length_append] at h1
    have h2 : ("/" : String).length = 1 := rfl
    have h3 : ("" : String).length = 0 := rfl
    rw [h2, h3] at h1
    omega

theorem cleanParts_mem_ne_empty (rooted : Bool) (l acc : List String)
    (hacc : ∀ x ∈ acc, x ≠ "") :
    ∀ x ∈ cleanParts rooted l acc, x ≠ "" := by
  induction l generalizing acc with
  | nil =>
    intro x hx
    simp only [cleanParts, List.mem_reverse] at hx
    exact hacc x hx
  | cons s rest ih =>
    intro x hx
    simp only [cleanParts] at hx
    by_cases h0 : s = "" ∨ s = "."
    · rw [if_pos h0] at hx
      exact ih acc hacc x hx
    · rw [if_neg h0] at hx
      by_cases h2 : s = ".."
      · rw [if_pos h2] at hx
        by_cases hnil : acc = []
        · rw [if_pos hnil] at hx
          cases rooted with
          | false =>
            refine ih (if (false : Bool) then [] else [".."]) ?_ x hx
            intro y hy
            simp at hy
            simp [hy]
          | true =>
            refine ih (if (true : Bool) then [] else [".."]) ?_ x hx
            intro y hy
            simp at hy
        · rw [if_neg hnil] at hx
          by_cases hhd : acc.headI = ".."
          · rw [if_pos hhd] at hx
            refine ih (".." :: acc) ?_ x hx
            intro y hy
            rcases List.mem_cons.mp hy with h | h
            · simp [h]
            · exact hacc y h
          · rw [if_neg hhd] at hx
            refine ih acc.tail ?_ x hx
            intro y hy
            exact hacc y (List.mem_of_mem_tail hy)
      · rw [if_neg h2] at hx
        refine ih (s :: acc) ?_ x hx
        intro y hy
        rcases List.mem_cons.mp hy with h | h
        · subst h
          intro hse
          exact h0 (Or.inl hse)
        · exact hacc y h

theorem cleanPath_ne_empty (p : String) : cleanPath p ≠ "" := by
  unfold cleanPath
  by_cases hp : p = ""
  · rw [if_pos hp]
    intro h
    exact absurd (congrArg String.length h) (by decide)
  · rw [if_neg hp]
    dsimp only
    by_cases hroot : isRooted p
    · rw [if_pos hroot]
      intro hcontra
      have h1 := congrArg String.length hcontra
      rw [String.length_append] at h1
      have h2 : ("/" : String).length = 1 := rfl
      have h3 : ("" : String).length = 0 := rfl
      rw [h2, h3] at h1
      omega
    · rw [if_neg hroot]
      by_cases hnil : cleanParts (isRooted p) (splitSlash p) [] = []
      · rw [if_pos hnil]
        intro h
        exact absurd (congrArg String.length h) (by decide)
      · rw [if_neg hnil]
        exact joinParts_ne_empty hnil
          (cleanParts_mem_ne_empty (isRooted p) (splitSlash p) [] (by simp))

/-- Joining a nonempty second element never yields the empty string. -/
theorem goJoin_ne_empty (a b : String) (hb : b ≠ "") : goJoin a b ≠ "" := by
  unfold goJoin
  by_cases ha : a = ""
  · simp [ha, hb, cleanPath_ne_empty]
  · rw [if_neg ha, if_neg hb]
    exact cleanPath_ne_empty _

/-! ## MD5 (crypto/md5), used by `predictTargetDirectory` to derive the
hash-bucketed destination-directory lock token from the source path.
32-bit words are modelled as `Nat` reduced modulo `2 ^ 32`. -/

/-- Reduce modulo `2 ^ 32` (32-bit word wraparound). -/
def w32 (n : Nat) : Nat := n % 4294967296

/-- 32-bit left rotation. -/
def rotl32 (x s : Nat) : Nat := w32 (x * 2 ^ s) ||| (x / 2 ^ (32 - s))

/-- 32-bit bitwise complement. -/
def not32 (x : Nat) : Nat := Nat.xor x 4294967295

/-- UTF-8 encoding of one character (Go strings are UTF-8 byte sequences). -/
def utf8Char (c : Char) : List Nat :=
  let n := c.toNat
  if n < 128 then [n]
  else if n < 2048 then [192 + n / 64, 128 + n % 64]
  else if n < 65536 then [224 + n / 4096, 128 + n / 64 % 64, 128 + n % 64]
  else [240 + n / 262144, 128 + n / 4096 % 64, 128 + n / 64 % 64, 128 + n % 64]

/-- The bytes of a Go string (its UTF-8 encoding). -/
def strBytes (s : String) : List Nat := (s.data.map utf8Char).flatten

/-- The 64 MD5 round constants `floor(abs(sin(i+1)) * 2^32)`. -/
def md5K : List Nat :=
  [3614090360, 3905402710, 606105819, 3250441966, 4118548399, 1200080426,
   2821735955, 4249261313, 1770035416, 2336552879, 4294925233, 2304563134,
   1804603682, 4254626195, 2792965006, 1236535329, 4129170786, 3225465664,
   643717713, 3921069994, 3593408605, 38016083, 3634488961, 3889429448,
   568446438, 3275163606, 4107603335, 1163531501, 2850285829, 4243563512,
   1735328473, 2368359562, 4294588738, 2272392833, 1839030562, 4259657740,
   2763975236, 1272893353, 4139469664, 3200236656, 681279174, 3936430074,
   3572445317, 76029189, 3654602809, 3873151461, 530742520, 3299628645,
   4096336452, 1126891415, 2878612391, 4237533241, 1700485571, 2399980690,
   4293915773, 2240044497, 1873313359, 4264355552, 2734768916, 1309151649,
   4149444226, 3174756917, 718787259, 3951481745]

/-- The 64 MD5 per-round shift amounts. -/
def md5S : List Nat :=
  [7, 12, 17, 22, 7, 12, 17, 22, 7, 12, 17, 22, 7, 12, 17, 22,
   5, 9, 14, 20, 5, 9, 14, 20, 5, 9, 14, 20, 5, 9, 14, 20,
   4, 11, 16, 23, 4, 11, 16, 23, 4, 11, 16, 23, 4, 11, 16, 23,
   6, 10, 15, 21, 6, 10, 15, 21, 6, 10, 15, 21, 6, 10, 15, 21]

/-- MD5 working state: four 32-bit words. -/
structure MD5State where
  a : Nat
  b : Nat
  c : Nat
  d : Nat

/-- MD5 nonlinear round function, selected by round index. -/
def md5F (i b c d : Nat) : Nat :=
  if i < 16 then (b &&& c) ||| (not32 b &&& d)
  else if i < 32 then (d &&& b) ||| (not32 d &&& c)
  else if i < 48 then Nat.xor (Nat.xor b c) d
  else Nat.xor c (b ||| not32 d)

/-- MD5 message-word index for round `i`. -/
def md5G (i : Nat) : Nat :=
  if i < 16 then i
  else if i < 32 then (5 * i + 1) % 16
  else if i < 48 then (3 * i + 5) % 16
  else (7 * i) % 16

/-- Decode 4 consecutive bytes as a little-endian 32-bit word; a 64-byte
chunk becomes 16 words. -/
def toWords : List Nat → List Nat
  | b0 :: b1 :: b2 :: b3 :: rest =>
    (b0 + 256 * b1 + 65536 * b2 + 16777216 * b3) :: toWords rest
  | _ => []

/-- One MD5 round applied to the working state. -/
def md5Round (m : List Nat) (st : MD5State) (i : Nat) : MD5State :=
  let f := w32 (md5F i st.b st.c st.d + st.a + md5K.getD i 0 + m.getD (md5G i) 0)
  { a := st.d, b := w32 (st.b + rotl32 f (md5S.getD i 0)), c := st.b, d := st.c }

/-- Process one 64-byte chunk: 64 rounds, then add the result into the
running state (mod `2 ^ 32`). -/
def md5Chunk (st : MD5State) (chunk : List Nat) : MD5State :=
  let m := toWords chunk
  let r := (List.range 64).foldl (md5Round m) st
  { a := w32 (st.a + r.a), b := w32 (st.b + r.b),
    c := w32 (st.c + r.c), d := w32 (st.d + r.d) }

/-- Split the padded message into 64-byte chunks (structural recursion on a
fuel bound so the kernel can evaluate it). -/
def toChunksAux : Nat → List Nat → List (List Nat)
  | 0, _ => []
  | _, [] => []
  | fuel + 1, x :: xs => (x :: xs).take 64 :: toChunksAux fuel ((x :: xs).drop 64)

/-- Split the padded message into 64-byte chunks. -/
def toChunks (l : List Nat) : List (List Nat) := toChunksAux l.length l

/-- MD5 padding: a `0x80` byte, zeros to 56 mod 64, then the bit length as
a little-endian 64-bit quantity. -/
def md5Pad (msg : List Nat) : List Nat :=
  let len := msg.length
  let zeros := (64 + 56 - (len + 1) % 64) % 64
  let bitLen := (8 * len) % 18446744073709551616
  msg ++ [128] ++ List.replicate zeros 0 ++
    (List.range 8).map (fun i => bitLen / 256 ^ i % 256)

/-- The little-endian bytes of a 32-bit word. -/
def wordLEBytes (w : Nat) : List Nat :=
  [w % 256, w / 256 % 256, w / 65536 % 256, w / 16777216 % 256]

/-- The 16-byte MD5 digest of a byte sequence. -/
def md5Sum (msg : List Nat) : List Nat :=
  let init : MD5State :=
    { a := 1732584193, b := 4023233417, c := 2562383102, d := 271733878 }
  let st := (toChunks (md5Pad msg)).foldl md5Chunk init
  wordLEBytes st.a ++ wordLEBytes st.b ++ wordLEBytes st.c ++ wordLEBytes st.d

/-- The lowercase hexadecimal digit character of a nibble: `0`–`9` for
values below ten, `a`–`f` above (Go's `%x` digit alphabet). -/
def hexDigitChar (n : Nat) : Char :=
  if n < 10 then Char.ofNat (48 + n) else Char.ofNat (87 + n)

/-- Whether a character is a lowercase hexadecimal digit. -/
def isHexDigit (c : Char) : Bool :=
  (48 ≤ c.toNat && c.toNat ≤ 57) || (97 ≤ c.toNat && c.toNat ≤ 102)

/-- The two lowercase hex characters of one byte (high nibble first). -/
def byteHexChars (b : Nat) : List Char := [hexDigitChar (b / 16), hexDigitChar (b % 16)]

/-- Go `fmt.Sprintf("%x", hash)` on the 16-byte digest of a string:
32 lowercase hex characters. -/
def md5HexString (s : String) : String :=
  String.mk (((md5Sum (strBytes s)).map byteHexChars).flatten)

set_option maxRecDepth 4096 in
/-- Sanity check of the MD5 embedding against a known digest. -/
theorem md5_known_vector : md5HexString "photo.jpg" = "72acded3acd45e4c8b6ed680854b8ab1" := by
  decide

/-! ## The lock manager (filelock.go).

`FileLockManager.LockFile`/`UnlockFile` normalize the path with
`filepath.Clean` and lock/unlock the per-key mutex.  We embed an operation
sequence as a trace of lock/unlock events on normalized keys, interpreted
over an explicit state: the set of keys ever created (`known`, Go's lazily
populated `locks` map) and the list of currently held keys (`held`).
Locking an already-held key blocks forever in a single-flow run and
unlocking a created-but-unheld mutex is a runtime fault; both are modelled
as `none`. -/

/-- Function `predictTargetDirectory` (filelock.go): `filepath.Join(baseDir, subDir)`
where `subDir` is the first two bytes (= first two hex characters) of the
hex MD5 digest of the file path. -/
def predictTargetDirectory (baseDir filePath : String) : String :=
  let hashStr := md5HexString filePath
  let subDir := String.mk (hashStr.data.take 2)
  goJoin baseDir subDir

/-- A lock-manager event on a normalized key. -/
inductive LockEvent
  | lock (key : String)
  | unlock (key : String)
deriving DecidableEq, Repr

/-- Lock-manager state: keys ever created, and keys currently held. -/
structure LockState where
  known : List String
  held : List String
deriving DecidableEq, Repr

/-- Remove the first occurrence of a key. -/
def removeFirst : List String → String → List String
  | [], _ => []
  | x :: xs, k => if x = k then xs else x :: removeFirst xs k

/-- Interpret one event.  `lock` creates the key if needed and blocks
(`none`) if the key is already held; `unlock` of a never-created key is a
no-op (Go checks map membership first), and `unlock` of a created but
unheld key is a fault (`none`). -/
def applyEvent (s : LockState) : LockEvent → Option LockState
  | .lock k =>
    if k ∈ s.held then none
    else some { known := if k ∈ s.known then s.known else k :: s.known,
                held := k :: s.held }
  | .unlock k =>
    if k ∈ s.known then
      if k ∈ s.held then some { s with held := removeFirst s.held k } else none
    else some s

/-- Interpret a trace of events from a starting state. -/
def runEvents : List LockEvent → LockState → Option LockState
  | [], s => some s
  | e :: es, s =>
    match applyEvent s e with
    | none => none
    | some s2 => runEvents es s2

/-- Events of `FileLockManager.LockFile`: lock the `Clean`ed path. -/
def lockFileEvents (p : String) : List LockEvent := [.lock (cleanPath p)]

/-- Events of `FileLockManager.UnlockFile`: unlock the `Clean`ed path. -/
def unlockFileEvents (p : String) : List LockEvent := [.unlock (cleanPath p)]

/-- The `lockedPaths` list built by `FileLockManager.LockDirectory`: the
original file path, then (when the predicted target directory is nonempty)
the `.dir_lock` token inside it. -/
def lockDirectoryPaths (baseDir filePath : String) : List String :=
  let targetDir := predictTargetDirectory baseDir filePath
  if targetDir ≠ "" then [filePath, goJoin targetDir ".dir_lock"] else [filePath]

/-- Events of `FileLockManager.LockDirectory`: lock the file, then lock the
predicted destination token. -/
def lockDirectoryEvents (baseDir filePath : String) : List LockEvent :=
  let targetDir := predictTargetDirectory baseDir filePath
  lockFileEvents filePath ++
    (if targetDir ≠ "" then lockFileEvents (goJoin targetDir ".dir_lock") else [])

/-- Events of `SafeFileOperation.Release`: `UnlockFile` each locked path in
the order stored in `lockedPaths` (a forward `range` loop). -/
def releaseEvents (lockedPaths : List String) : List LockEvent :=
  (lockedPaths.map unlockFileEvents).flatten

/-- Outcome of the function passed to `WithFilelocks`. -/
inductive FnOutcome
  | ok
  | err (msg : String)
  | panicked
deriving DecidableEq, Repr

/-- The event trace of `WithFilelocks`: `NewSafeFileOperation` acquires via
`LockDirectory`, and the deferred `Release` runs on every exit path of the
handler, whatever its outcome. -/
def withFilelocksEvents (baseDir filePath : String) (outcome : FnOutcome) :
    List LockEvent :=
  lockDirectoryEvents baseDir filePath ++
    releaseEvents (lockDirectoryPaths baseDir filePath)

/-- Keys of the lock events of a trace, in trace order. -/
def acquiredKeys (evs : List LockEvent) : List String :=
  evs.filterMap fun e => match e with | .lock k => some k | .unlock _ => none

/-- Keys of the unlock events of a trace, in trace order. -/
def releasedKeys (evs : List LockEvent) : List String :=
  evs.filterMap fun e => match e with | .lock _ => none | .unlock k => some k

/-! Facts about the digest prefix used as the lock-space bucket. -/

theorem byteHexChars_flatten_length (l : List Nat) :
    ((l.map byteHexChars).flatten).length = 2 * l.length := by
  induction l with
  | nil => simp
  | cons x xs ih => simp [byteHexChars] at *; omega

theorem md5Sum_length (m : List Nat) : (md5Sum m).length = 16 := by
  simp [md5Sum, wordLEBytes]

theorem md5HexString_data_length (s : String) : (md5HexString s).data.length = 32 := by
  show (((md5Sum (strBytes s)).map byteHexChars).flatten).length = 32
  rw [byteHexChars_flatten_length, md5Sum_length]

/-- The two-character hash bucket is never the empty string. -/
theorem subDir_ne_empty (s : String) : String.mk ((md5HexString s).data.take 2) ≠ "" := by
  intro h
  have hdata : (md5HexString s).data.take 2 = [] := by
    have := congrArg String.data h
    simpa using this
  have hlen := congrArg List.length hdata
  rw [List.length_take, md5HexString_data_length] at hlen
  simp at hlen

/-- The predicted destination directory is never the empty string, so
`LockDirectory` always takes the target-locking branch. -/
theorem predictTargetDirectory_ne_empty (baseDir filePath : String) :
    predictTargetDirectory baseDir filePath ≠ "" :=
  goJoin_ne_empty _ _ (subDir_ne_empty filePath)

/-- Lexicographic order on character sequences (by code point). -/
def charListLt : List Char → List Char → Bool
  | [], [] => false
  | [], _ :: _ => true
  | _ :: _, [] => false
  | x :: xs, y :: ys =>
    if x.toNat < y.toNat then true
    else if x.toNat = y.toNat then charListLt xs ys
    else false

/-- Lexicographic order on strings. -/
def lexLt (a b : String) : Bool := charListLt a.data b.data

/-- The normalized key locked second by `LockDirectory`. -/
def targetLockKey (baseDir filePath : String) : String :=
  cleanPath (goJoin (predictTargetDirectory baseDir filePath) ".dir_lock")

theorem lockDirectoryPaths_eq (baseDir filePath : String) :
    lockDirectoryPaths baseDir filePath =
      [filePath, goJoin (predictTargetDirectory baseDir filePath) ".dir_lock"] := by
  unfold lockDirectoryPaths
  simp [predictTargetDirectory_ne_empty baseDir filePath]

theorem lockDirectoryEvents_eq (baseDir filePath : String) :
    lockDirectoryEvents baseDir filePath =
      [.lock (cleanPath filePath), .lock (targetLockKey baseDir filePath)] := by
  unfold lockDirectoryEvents targetLockKey lockFileEvents
  simp [predictTargetDirectory_ne_empty baseDir filePath]

theorem withFilelocksEvents_eq (baseDir filePath : String) (o : FnOutcome) :
    withFilelocksEvents baseDir filePath o =
      [.lock (cleanPath filePath), .lock (targetLockKey baseDir filePath),
       .unlock (cleanPath filePath), .unlock (targetLockKey baseDir filePath)] := by
  unfold withFilelocksEvents releaseEvents
  rw [lockDirectoryEvents_eq, lockDirectoryPaths_eq]
  simp [unlockFileEvents, targetLockKey]

theorem removeFirst_cons_self (k : String) (l : List String) :
    removeFirst (k :: l) k = l := by
  simp [removeFirst]

theorem removeFirst_cons_ne (x k : String) (h : ¬x = k) (l : List String) :
    removeFirst (x :: l) k = x :: removeFirst l k := by
  simp [removeFirst, h]

/-- C7: locks are released on every exit path of the handler.  Whenever the
acquisition phase of `WithFilelocks` succeeds from a state `s` (so the
handler actually ran), the full trace — acquisition followed by the
deferred `Release`, for every handler outcome including an error return and
a panic — succeeds and restores exactly the held-lock list of `s`, and from
the resulting state the same two path keys can be acquired again rather
than deadlocking. -/
theorem withFilelocks_releases_on_every_exit (baseDir filePath : String) (o : FnOutcome)
    (s : LockState)
    (hacq : (runEvents (lockDirectoryEvents baseDir filePath) s).isSome) :
    ∃ s2 : LockState,
      runEvents (withFilelocksEvents baseDir filePath o) s = some s2 ∧
      s2.held = s.held ∧
      (runEvents (lockDirectoryEvents baseDir filePath) s2).isSome := by
  rw [lockDirectoryEvents_eq] at hacq ⊢
  rw [withFilelocksEvents_eq]
  set k1 := cleanPath filePath with hk1
  set k2 := targetLockKey baseDir filePath with hk2
  by_cases h1 : k1 ∈ s.held
  · simp [runEvents, applyEvent, h1] at hacq
  · by_cases h2 : k2 ∈ k1 :: s.held
    · simp [runEvents, applyEvent, h1, h2] at hacq
    · have hne : ¬k2 = k1 := fun h => h2 (by simp [h])
      have h2' : ¬k2 ∈ s.held := fun h => h2 (List.mem_cons_of_mem _ h)
      set K1 : List String := if k1 ∈ s.known then s.known else k1 :: s.known
        with hK1def
      set K2 : List String := if k2 ∈ K1 then K1 else k2 :: K1 with hK2def
      have hK1mem : k1 ∈ K1 := by rw [hK1def]; split <;> simp_all
      have hK2mem1 : k1 ∈ K2 := by rw [hK2def]; split <;> simp_all
      have hK2mem2 : k2 ∈ K2 := by rw [hK2def]; split <;> simp_all
      have hrf1 : removeFirst (k2 :: k1 :: s.held) k1 = k2 :: s.held := by
        rw [removeFirst_cons_ne _ _ hne, removeFirst_cons_self]
      have hstep : ∀ (e : LockEvent) (es : List LockEvent) (st st' : LockState),
          applyEvent st e = some st' → runEvents (e :: es) st = runEvents es st' := by
        intro e es st st' h
        simp [runEvents, h]
      have e1 : applyEvent s (.lock k1) = some ⟨K1, k1 :: s.held⟩ := by
        simp [applyEvent, h1, hK1def]
      have e2 : applyEvent ⟨K1, k1 :: s.held⟩ (.lock k2) = some ⟨K2, k2 :: k1 :: s.held⟩ := by
        simp [applyEvent, h2, hK2def]
      have e3 : applyEvent ⟨K2, k2 :: k1 :: s.held⟩ (.unlock k1) = some ⟨K2, k2 :: s.held⟩ := by
        simp [applyEvent, hK2mem1, hrf1]
      have e4 : applyEvent ⟨K2, k2 :: s.held⟩ (.unlock k2) = some ⟨K2, s.held⟩ := by
        simp [applyEvent, hK2mem2, removeFirst_cons_self]
      refine ⟨⟨K2, s.held⟩, ?_, rfl, ?_⟩
      · rw [hstep _ _ _ _ e1, hstep _ _ _ _ e2, hstep _ _ _ _ e3, hstep _ _ _ _ e4]
        rfl
      · have f1 : applyEvent ⟨K2, s.held⟩ (.lock k1) = some ⟨K2, k1 :: s.held⟩ := by
          simp [applyEvent, h1, hK2mem1]
        have f2 : applyEvent ⟨K2, k1 :: s.held⟩ (.lock k2) = some ⟨K2, k2 :: k1 :: s.held⟩ := by
          simp [applyEvent, h2, hK2mem2]
        rw [hstep _ _ _ _ f1, hstep _ _ _ _ f2]
        rfl

/-! ## Jobs, results and per-job processing (concurrent.go, main.go). -/

/-- A Go error value as used by this engine: either the dedicated
`*NoGPSError` type (main.go) or a generic `fmt.Errorf` error. -/
inductive GoError
  | noGPS (file : String) (inner : String)
  | errorf (msg : String)
deriving DecidableEq, Repr

/-- Method `Error()` — the error's message string (`NoGPSError.Error` formats
`"no GPS data in <file>: <err>"`). -/
def GoError.message : GoError → String
  | .noGPS file inner => "no GPS data in " ++ file ++ ": " ++ inner
  | .errorf msg => msg

/-- Function `isNoGPSError` (main.go): a type assertion against `*NoGPSError`. -/
def isNoGPSError : GoError → Bool
  | .noGPS _ _ => true
  | .errorf _ => false

/-- Struct `WorkJob` (concurrent.go): a single photo processing job. -/
structure WorkJob where
  PhotoPath : String
  DestPath : String
  JobType : String
deriving DecidableEq, Repr

/-- Struct `WorkResult` (concurrent.go).  `Duration` is wall-clock time measured by
`time.Since`; real time is outside the embedding, so it is carried as an
uninterpreted `Int` field set to 0 by the model. -/
structure WorkResult where
  Job : WorkJob
  Success : Bool
  Error : Option GoError
  Message : String
  Duration : Int
deriving DecidableEq, Repr

/-- Function `processJob` (concurrent.go), parameterized by the external per-photo
handler `pp` (`processPhoto`, which performs file I/O and returns `nil` or
an error).  The zero-value result references the job with `Success = false`
and the switch on `JobType` fills in the outcome. -/
def processJob (pp : String → String → Option GoError) (job : WorkJob) : WorkResult :=
  let base : WorkResult :=
    { Job := job, Success := false, Error := none, Message := "", Duration := 0 }
  if job.JobType = "process" then
    match pp job.PhotoPath job.DestPath with
    | some e =>
      if isNoGPSError e then { base with Message := "No GPS data", Success := false }
      else { base with Error := some e }
    | none => { base with Success := true, Message := "Processed successfully" }
  else if job.JobType = "datetime" then
    { base with Message := "DateTime matching not yet implemented", Success := false }
  else if job.JobType = "clean" then
    { base with Message := "Clean operation not yet implemented", Success := false }
  else
    { base with Error := some (.errorf ("unknown job type: " ++ job.JobType)) }

/-! ## The worker loop (`cancellableWorker`).

Each loop iteration of the worker blocks on (receive next job | context
done).  We embed one run of the loop as a function of the sequence of
outcomes of those blocking points: a `recv` event carries the dequeued job,
the value `ShouldContinue()` read immediately after the dequeue, and
whether the result send won the race against context cancellation; the
other two events are a closed job channel and a fired cancellation
context. -/

/-- Outcome of one blocking point of the worker loop. -/
inductive WorkerEvent
  | recv (job : WorkJob) (shouldContinueAfter : Bool) (sendDelivered : Bool)
  | closed
  | ctxDone
deriving DecidableEq, Repr

/-- Why the worker loop returned. -/
inductive WorkerExit
  | channelClosed
  | cancelled
deriving DecidableEq, Repr

/-- One run of `cancellableWorker`'s loop over a sequence of blocking-point
outcomes: returns the results actually delivered to the result channel and
the exit reason (`none` when the event sequence ends with the worker still
looping). -/
def cancellableWorkerRun (pp : String → String → Option GoError) :
    List WorkerEvent → List WorkResult × Option WorkerExit
  | [] => ([], none)
  | .closed :: _ => ([], some .channelClosed)
  | .ctxDone :: _ => ([], some .cancelled)
  | .recv job sc sd :: rest =>
    if !sc then ([], some .cancelled)
    else
      let r := processJob pp job
      if sd then
        let rec2 := cancellableWorkerRun pp rest
        (r :: rec2.1, rec2.2)
      else ([], some .cancelled)

/-! ## Cancellation manager (concurrent.go, signal-handling file).

The manager holds a `cancelled` flag guarded by a mutex and a
`context.CancelFunc`; we model its mutable state (flag plus whether the
context has been cancelled).  Mutex-serialized calls become a sequence of
state transitions. -/

/-- The mutable state of a `CancellationManager`. -/
structure CMState where
  cancelled : Bool
  ctxDone : Bool
deriving DecidableEq, Repr

/-- Constructor `NewCancellationManager`: fresh flag, live context. -/
def newCancellationManager : CMState := { cancelled := false, ctxDone := false }

/-- Method `IsCancelled`. -/
def CMState.IsCancelled (cm : CMState) : Bool := cm.cancelled

/-- Method `ShouldContinue`. -/
def CMState.ShouldContinue (cm : CMState) : Bool := !cm.cancelled

/-- Method `Cancel` (concurrent.go): sets the flag and cancels the context only
when the flag is not yet set. -/
def CMState.Cancel (cm : CMState) : CMState :=
  if cm.cancelled then cm else { cancelled := true, ctxDone := true }

/-- Method `CancelWithReason` (signal-handling file): same transition as `Cancel`
(the reason is only printed). -/
def CMState.CancelWithReason (cm : CMState) (reason : String) : CMState :=
  if cm.cancelled then cm else { cancelled := true, ctxDone := true }

/-- One call in a sequence of cancellation requests. -/
inductive CancelCall
  | plain
  | withReason (reason : String)
deriving DecidableEq, Repr

/-- Apply one cancellation call. -/
def applyCancelCall (cm : CMState) : CancelCall → CMState
  | .plain => cm.Cancel
  | .withReason r => cm.CancelWithReason r

/-- Apply a (mutex-serialized) sequence of cancellation calls. -/
def applyCancelCalls (cm : CMState) (calls : List CancelCall) : CMState :=
  calls.foldl applyCancelCall cm

/-! ## Progress tracker (concurrent.go). -/

/-- The counters of `ProgressTracker`; Go `int` is modelled by `Int`.
`StartTime` is a wall-clock reading, so elapsed time is passed explicitly
to `EstimateTimeRemaining`. -/
structure ProgressTracker where
  Total : Int
  Completed : Int
  Failed : Int
  Skipped : Int
deriving DecidableEq, Repr

/-- Constructor `NewProgressTracker`: only `Total` is set; the other counters are Go
zero values. -/
def NewProgressTracker (total : Int) : ProgressTracker :=
  { Total := total, Completed := 0, Failed := 0, Skipped := 0 }

/-- Method `Update`: increments `Completed`, and `Failed` too when the result was
unsuccessful. -/
def ProgressTracker.Update (pt : ProgressTracker) (success : Bool) : ProgressTracker :=
  let pt2 := { pt with Completed := pt.Completed + 1 }
  if !success then { pt2 with Failed := pt2.Failed + 1 } else pt2

/-- Method `Skip`: increments `Skipped` only. -/
def ProgressTracker.Skip (pt : ProgressTracker) : ProgressTracker :=
  { pt with Skipped := pt.Skipped + 1 }

/-- Method `EstimateTimeRemaining` with the `time.Since(pt.StartTime)` reading
passed in as `elapsed` (a `time.Duration`, i.e. an integer nanosecond
count); Go integer division truncates toward zero (`Int.tdiv`). -/
def ProgressTracker.EstimateTimeRemaining (pt : ProgressTracker) (elapsed : Int) : Int :=
  if pt.Completed = 0 then 0
  else
    let remaining := pt.Total - pt.Completed - pt.Skipped
    if remaining ≤ 0 then 0
    else remaining * (Int.tdiv elapsed pt.Completed)

/-- One mutation of the tracker. -/
inductive PTOp
  | update (success : Bool)
  | skip
deriving DecidableEq, Repr

/-- Apply one tracker mutation. -/
def applyPTOp (pt : ProgressTracker) : PTOp → ProgressTracker
  | .update success => pt.Update success
  | .skip => pt.Skip

/-- Apply a (mutex-serialized) sequence of tracker mutations. -/
def applyPTOps (pt : ProgressTracker) (ops : List PTOp) : ProgressTracker :=
  ops.foldl applyPTOp pt

/-! ## Orchestrator (`ProcessJobsWithCancellation`). -/

/-- The worker-count clamp at the top of `ProcessJobsWithCancellation`. -/
def clampWorkers (numWorkers : Int) : Int :=
  if numWorkers < 1 then 1
  else if numWorkers > 16 then 16
  else numWorkers

/-- The return value of `ProcessJobsWithCancellation`, a function of the
cancellation manager's state after the run: `fmt.Errorf("processing was
cancelled")` when `IsCancelled()`, `nil` otherwise. -/
def processJobsReturn (cm : CMState) : Option GoError :=
  if cm.IsCancelled then some (.errorf "processing was cancelled") else none

/-! ## Final summary (`printCancellableProcessingSummary`). -/

/-- The error-type label used by the summary's breakdown. -/
def errorTypeOf (e : GoError) : String :=
  if isNoGPSError e then "No GPS data" else e.message

/-- Whether a result enters the summary's error breakdown: only failed
results carrying a non-nil error do. -/
def countedInBreakdown (r : WorkResult) : Bool := !r.Success && r.Error.isSome

/-- The error-type labels accumulated by the breakdown loop, in result
order (the Go map's counts are the multiset counts of this list). -/
def errorBreakdownTypes (results : List WorkResult) : List String :=
  results.filterMap fun r =>
    match r.Error with
    | some e => if !r.Success then some (errorTypeOf e) else none
    | none => none

/-! ## Claim theorems. -/

/-- C1: `ProcessJobsWithCancellation` returns an error value if and only if
cancellation occurred: whatever the course of the concurrent run, its
return statement is a function of the manager's final state — the non-nil
error `processing was cancelled` when the cancelled flag is set at the end
of the run, and nil otherwise. -/
theorem orchestrator_error_iff_cancelled (cm : CMState) :
    (cm.IsCancelled = true →
      processJobsReturn cm = some (.errorf "processing was cancelled")) ∧
    (cm.IsCancelled = false → processJobsReturn cm = none) ∧
    ((processJobsReturn cm).isSome ↔ cm.IsCancelled = true) := by
  rcases cm with ⟨c, d⟩
  cases c <;> simp [processJobsReturn, CMState.IsCancelled]

/-- C1 witness: the two branches at concrete final states. -/
theorem orchestrator_error_iff_cancelled_witness :
    processJobsReturn ⟨true, true⟩ = some (.errorf "processing was cancelled") ∧
    processJobsReturn ⟨false, false⟩ = none :=
  ⟨(orchestrator_error_iff_cancelled ⟨true, true⟩).1 rfl,
   (orchestrator_error_iff_cancelled ⟨false, false⟩).2.1 rfl⟩

/-- C4: cancellation is idempotent.  The first call on a fresh manager
performs the single transition to the cancelled state (flag set, context
cancelled); any call on an already-cancelled manager leaves the state
exactly unchanged (and in particular cannot fault — both `Cancel` and
`CancelWithReason` are total); after any nonempty sequence of
`Cancel`/`CancelWithReason` calls `IsCancelled` is `true`; and
`Cancel ∘ Cancel = Cancel`. -/
theorem cancel_idempotent (cm : CMState) (c : CancelCall) (calls : List CancelCall) :
    applyCancelCall newCancellationManager c = { cancelled := true, ctxDone := true } ∧
    (cm.IsCancelled = true → applyCancelCall cm c = cm) ∧
    (applyCancelCalls newCancellationManager (c :: calls)).IsCancelled = true ∧
    CMState.Cancel (CMState.Cancel cm) = CMState.Cancel cm := by
  have happly : ∀ (c' : CancelCall) (m : CMState), m.cancelled = true →
      applyCancelCall m c' = m := by
    intro c' m hm
    cases c' <;> simp [applyCancelCall, CMState.Cancel, CMState.CancelWithReason, hm]
  have hkeep : ∀ (l : List CancelCall) (m : CMState), m.cancelled = true →
      (applyCancelCalls m l).cancelled = true := by
    intro l
    induction l with
    | nil => intro m hm; simpa [applyCancelCalls] using hm
    | cons x xs ih =>
      intro m hm
      have hx := happly x m hm
      simpa [applyCancelCalls, List.foldl_cons, hx] using ih m hm
  refine ⟨?_, ?_, ?_, ?_⟩
  · cases c <;> rfl
  · intro h
    exact happly c cm h
  · have h1 : applyCancelCall newCancellationManager c =
        { cancelled := true, ctxDone := true } := by cases c <;> rfl
    show (applyCancelCalls newCancellationManager (c :: calls)).cancelled = true
    simpa [applyCancelCalls, List.foldl_cons, h1] using
      hkeep calls { cancelled := true, ctxDone := true } rfl
  · rcases cm with ⟨cc, dd⟩
    cases cc <;> rfl

/-- C4 witness: a second call on a cancelled manager is a no-op. -/
theorem cancel_idempotent_witness :
    applyCancelCall ⟨true, true⟩ .plain = (⟨true, true⟩ : CMState) :=
  (cancel_idempotent ⟨true, true⟩ .plain []).2.1 rfl

/-- C5: `EstimateTimeRemaining` returns zero when `Completed = 0` or when
`remaining = Total - Completed - Skipped ≤ 0`, and otherwise returns
`remaining * (elapsed / Completed)` with Go's truncating integer division
of durations. -/
theorem eta_formula (pt : ProgressTracker) (elapsed : Int) :
    (pt.Completed = 0 → pt.EstimateTimeRemaining elapsed = 0) ∧
    (pt.Total - pt.Completed - pt.Skipped ≤ 0 → pt.EstimateTimeRemaining elapsed = 0) ∧
    (pt.Completed ≠ 0 → 0 < pt.Total - pt.Completed - pt.Skipped →
      pt.EstimateTimeRemaining elapsed =
        (pt.Total - pt.Completed - pt.Skipped) * Int.tdiv elapsed pt.Completed) := by
  refine ⟨?_, ?_, ?_⟩
  · intro h
    simp [ProgressTracker.EstimateTimeRemaining, h]
  · intro h
    by_cases hc : pt.Completed = 0
    · simp [ProgressTracker.EstimateTimeRemaining, hc]
    · simp [ProgressTracker.EstimateTimeRemaining, hc, h]
  · intro hc hr
    simp [ProgressTracker.EstimateTimeRemaining, hc, not_le.mpr hr]

/-- C5 witness: with 10 total, 4 completed, 1 skipped and 100 elapsed the
ETA is `5 * (100 / 4)`. -/
theorem eta_formula_witness :
    ProgressTracker.EstimateTimeRemaining ⟨10, 4, 0, 1⟩ 100 =
      ((10 : Int) - 4 - 1) * Int.tdiv 100 4 :=
  (eta_formula ⟨10, 4, 0, 1⟩ 100).2.2 (by decide) (by decide)

/-- C6: starting from `NewProgressTracker` (both counters zero), every
sequence of `Update`/`Skip` operations preserves `Failed ≤ Completed`:
`Update` always increments `Completed` and increments `Failed` only on
failure, and `Skip` touches neither. -/
theorem tracker_failed_le_completed (total : Int) (ops : List PTOp) :
    (NewProgressTracker total).Failed = 0 ∧
    (NewProgressTracker total).Completed = 0 ∧
    (applyPTOps (NewProgressTracker total) ops).Failed ≤
      (applyPTOps (NewProgressTracker total) ops).Completed := by
  have hstep : ∀ (op : PTOp) (pt : ProgressTracker), pt.Failed ≤ pt.Completed →
      (applyPTOp pt op).Failed ≤ (applyPTOp pt op).Completed := by
    intro op pt h
    cases op with
    | update success =>
      cases success <;> simp [applyPTOp, ProgressTracker.Update] <;> omega
    | skip => simpa [applyPTOp, ProgressTracker.Skip] using h
  have hinv : ∀ (l : List PTOp) (pt : ProgressTracker), pt.Failed ≤ pt.Completed →
      (applyPTOps pt l).Failed ≤ (applyPTOps pt l).Completed := by
    intro l
    induction l with
    | nil => intro pt h; simpa [applyPTOps] using h
    | cons x xs ih =>
      intro pt h
      simpa [applyPTOps, List.foldl_cons] using ih (applyPTOp pt x) (hstep x pt h)
  exact ⟨rfl, rfl, hinv ops (NewProgressTracker total) (by simp [NewProgressTracker])⟩

/-- C8: the worker count is clamped into [1, 16] before the pool starts:
below 1 it is raised to exactly 1, above 16 it is capped to exactly 16,
values already in range pass through unchanged, and the clamp never causes
an error return (the orchestrator's only error arises from cancellation). -/
theorem worker_count_clamped (n : Int) :
    (n < 1 → clampWorkers n = 1) ∧
    (n > 16 → clampWorkers n = 16) ∧
    (1 ≤ n → n ≤ 16 → clampWorkers n = n) ∧
    (∀ cm : CMState, cm.IsCancelled = false → processJobsReturn cm = none) := by
  refine ⟨?_, ?_, ?_, ?_⟩
  · intro h
    simp [clampWorkers, h]
  · intro h
    have h1 : ¬n < 1 := by omega
    simp [clampWorkers, h1, h]
  · intro h1 h16
    have ha : ¬n < 1 := by omega
    have hb : ¬n > 16 := by omega
    simp [clampWorkers, ha, hb]
  · intro cm h
    simp [processJobsReturn, h]

/-- C8 witness: requesting 0 workers behaves as 1, requesting 1000 behaves
as 16. -/
theorem worker_count_clamped_witness :
    clampWorkers 0 = 1 ∧ clampWorkers 1000 = 16 :=
  ⟨(worker_count_clamped 0).1 (by decide), (worker_count_clamped 1000).2.1 (by decide)⟩

set_option maxRecDepth 8192 in
/-- C7 witness: a run over baseDir `base` and file `photo.jpg` from an
empty lock table, with a handler that returns an error. -/
theorem withFilelocks_releases_witness :
    ∃ s2 : LockState,
      runEvents (withFilelocksEvents "base" "photo.jpg" (.err "handler failed"))
          ⟨[], []⟩ = some s2 ∧
      s2.held = (⟨[], []⟩ : LockState).held ∧
      (runEvents (lockDirectoryEvents "base" "photo.jpg") s2).isSome = true :=
  withFilelocks_releases_on_every_exit "base" "photo.jpg" (.err "handler failed")
    ⟨[], []⟩ (by decide)

/-- C2 (amended): `WithFilelocks` acquires its two path locks in a fixed
deterministic order — the source file's normalized key first, then the
predicted destination-directory token's key — which is not in general the
lexicographic order of the normalized keys, and releases them in the same
order in which they were acquired (a forward loop over `lockedPaths`), not
the reverse, for every baseDir, filePath and handler outcome. -/
theorem withFilelocks_lock_order (baseDir filePath : String) (o : FnOutcome) :
    acquiredKeys (withFilelocksEvents baseDir filePath o) =
      [cleanPath filePath, targetLockKey baseDir filePath] ∧
    releasedKeys (withFilelocksEvents baseDir filePath o) =
      acquiredKeys (withFilelocksEvents baseDir filePath o) := by
  rw [withFilelocksEvents_eq baseDir filePath o]
  simp [acquiredKeys, releasedKeys]

set_option maxRecDepth 8192 in
/-- C2 counterexample: for baseDir `base` and file `photo.jpg` the predicted
token key is `base/72/.dir_lock`, which is lexicographically smaller than
the source key `photo.jpg` yet acquired second — so acquisition is not in
lexicographic order of the normalized keys — and the release order equals
the acquisition order, not its reverse. -/
theorem withFilelocks_lock_order_counterexample :
    acquiredKeys (withFilelocksEvents "base" "photo.jpg" .ok) =
      ["photo.jpg", "base/72/.dir_lock"] ∧
    lexLt "base/72/.dir_lock" "photo.jpg" = true ∧
    releasedKeys (withFilelocksEvents "base" "photo.jpg" .ok) =
      ["photo.jpg", "base/72/.dir_lock"] ∧
    releasedKeys (withFilelocksEvents "base" "photo.jpg" .ok) ≠
      (acquiredKeys (withFilelocksEvents "base" "photo.jpg" .ok)).reverse := by
  decide

/-- C3: a per-job handler error is never a pool-level failure.  `processJob`
is total (a Lean function), always returns a result referencing its job;
the result is failed whenever the handler returned an error — for a
`process` job whose handler errs, and for the unknown-job-type case,
`Success = false`.  The worker loop forwards the result and continues
regardless of result success, and its exit can only be caused by a closed
job channel or an observed cancellation (a fired context, a failed
`ShouldContinue` re-check, or a cancellation racing the result send) —
never by a failed result. -/
theorem worker_isolates_job_failures (pp : String → String → Option GoError)
    (job : WorkJob) (events : List WorkerEvent) :
    (processJob pp job).Job = job ∧
    (job.JobType = "process" → ∀ e, pp job.PhotoPath job.DestPath = some e →
      (processJob pp job).Success = false) ∧
    (job.JobType ≠ "process" → job.JobType ≠ "datetime" → job.JobType ≠ "clean" →
      (processJob pp job).Success = false ∧
      (processJob pp job).Error = some (.errorf ("unknown job type: " ++ job.JobType))) ∧
    cancellableWorkerRun pp (.recv job true true :: events) =
      ((processJob pp job) :: (cancellableWorkerRun pp events).1,
        (cancellableWorkerRun pp events).2) ∧
    ((cancellableWorkerRun pp events).2.isSome = true →
      ∃ ev ∈ events, ev = WorkerEvent.closed ∨ ev = WorkerEvent.ctxDone ∨
        (∃ j sd, ev = WorkerEvent.recv j false sd) ∨
        (∃ j, ev = WorkerEvent.recv j true false)) := by
  refine ⟨?_, ?_, ?_, ?_, ?_⟩
  · by_cases h1 : job.JobType = "process"
    · rcases hpp : pp job.PhotoPath job.DestPath with _ | e
      · simp [processJob, h1, hpp]
      · by_cases hg : isNoGPSError e <;> simp [processJob, h1, hpp, hg]
    · by_cases h2 : job.JobType = "datetime"
      · simp [processJob, h1, h2]
      · by_cases h3 : job.JobType = "clean" <;> simp [processJob, h1, h2, h3]
  · intro hjt e he
    by_cases hg : isNoGPSError e <;> simp [processJob, hjt, he, hg]
  · intro h1 h2 h3
    simp [processJob, h1, h2, h3]
  · simp [cancellableWorkerRun]
  · have aux : ∀ evs : List WorkerEvent,
        (cancellableWorkerRun pp evs).2.isSome = true →
        ∃ ev ∈ evs, ev = WorkerEvent.closed ∨ ev = WorkerEvent.ctxDone ∨
          (∃ j sd, ev = WorkerEvent.recv j false sd) ∨
          (∃ j, ev = WorkerEvent.recv j true false) := by
      intro evs
      induction evs with
      | nil => simp [cancellableWorkerRun]
      | cons e rest ih =>
        intro h
        cases e with
        | closed => exact ⟨.closed, by simp, Or.inl rfl⟩
        | ctxDone => exact ⟨.ctxDone, by simp, Or.inr (Or.inl rfl)⟩
        | recv j sc sd =>
          cases sc with
          | false => exact ⟨.recv j false sd, by simp, Or.inr (Or.inr (Or.inl ⟨j, sd, rfl⟩))⟩
          | true =>
            cases sd with
            | false =>
              exact ⟨.recv j true false, by simp, Or.inr (Or.inr (Or.inr ⟨j, rfl⟩))⟩
            | true =>
              simp only [cancellableWorkerRun] at h
              rcases ih (by simpa using h) with ⟨ev, hmem, hcase⟩
              exact ⟨ev, List.mem_cons_of_mem _ hmem, hcase⟩
    exact aux events

/-- C3 witness: a handler error on an unknown job type yields a failed
result, and a worker that processed it still runs on to observe the closed
channel. -/
theorem worker_isolates_job_failures_witness :
    (processJob (fun _ _ => some (.errorf "boom")) ⟨"p.jpg", "d", "bogus"⟩).Success
      = false ∧
    (cancellableWorkerRun (fun _ _ => some (.errorf "boom"))
        [.recv ⟨"p.jpg", "d", "bogus"⟩ true true, .closed]).2 = some .channelClosed := by
  refine ⟨((worker_isolates_job_failures (fun _ _ => some (.errorf "boom"))
    ⟨"p.jpg", "d", "bogus"⟩ []).2.2.1 (by decide) (by decide) (by decide)).1, ?_⟩
  have h := (worker_isolates_job_failures (fun _ _ => some (.errorf "boom"))
    ⟨"p.jpg", "d", "bogus"⟩ [.closed]).2.2.2.1
  rw [h]
  simp [cancellableWorkerRun]

/-- Nibble values yield hexadecimal digit characters. -/
theorem hexDigitChar_isHex (n : Nat) (h : n < 16) :
    isHexDigit (hexDigitChar n) = true := by
  interval_cases n <;> decide

/-- Every byte of an MD5 digest is below 256. -/
theorem md5Sum_bytes_lt (m : List Nat) : ∀ x ∈ md5Sum m, x < 256 := by
  intro x hx
  simp only [md5Sum, wordLEBytes, List.mem_append, List.mem_cons,
    List.not_mem_nil, or_false] at hx
  rcases hx with ((h | h) | h) | h <;> rcases h with rfl | rfl | rfl | rfl <;> omega

/-- Every character of the hex digest is a hexadecimal character. -/
theorem md5HexString_chars (s : String) :
    ∀ c ∈ (md5HexString s).data, isHexDigit c = true := by
  intro c hc
  have : c ∈ ((md5Sum (strBytes s)).map byteHexChars).flatten := hc
  rw [List.mem_flatten] at this
  rcases this with ⟨l, hl, hcl⟩
  rw [List.mem_map] at hl
  rcases hl with ⟨b, hb, rfl⟩
  have hblt : b < 256 := md5Sum_bytes_lt (strBytes s) b hb
  simp only [byteHexChars, List.mem_cons, List.not_mem_nil, or_false] at hcl
  rcases hcl with h | h <;> rw [h] <;> exact hexDigitChar_isHex _ (by omega)

/-- C9: the predicted destination-directory token is a deterministic pure
function of the source path alone: `predictTargetDirectory` is
`filepath.Join(baseDir, s)` where `s` is the two-character (hexadecimal)
prefix of the MD5 digest of the path; it is never empty and depends on no
file metadata (all inputs of the embedding are the two strings, so two
calls with equal arguments yield equal tokens), and therefore
`LockDirectory` always locks exactly the source path plus this one
token. -/
theorem predict_target_deterministic (baseDir filePath : String) :
    predictTargetDirectory baseDir filePath =
      goJoin baseDir (String.mk ((md5HexString filePath).data.take 2)) ∧
    ((md5HexString filePath).data.take 2).length = 2 ∧
    (∀ c ∈ (md5HexString filePath).data.take 2, isHexDigit c = true) ∧
    predictTargetDirectory baseDir filePath ≠ "" ∧
    lockDirectoryPaths baseDir filePath =
      [filePath, goJoin (predictTargetDirectory baseDir filePath) ".dir_lock"] := by
  refine ⟨rfl, ?_, ?_, predictTargetDirectory_ne_empty baseDir filePath,
    lockDirectoryPaths_eq baseDir filePath⟩
  · rw [List.length_take, md5HexString_data_length]
    decide
  · intro c hc
    exact md5HexString_chars filePath c (List.mem_of_mem_take hc)

set_option maxRecDepth 8192 in
/-- C9 witness: at baseDir `base` and path `photo.jpg` the token is
`base/72` and the character `7` of the bucket is hexadecimal. -/
theorem predict_target_deterministic_witness :
    predictTargetDirectory "base" "photo.jpg" ≠ "" ∧ isHexDigit '7' = true :=
  ⟨(predict_target_deterministic "base" "photo.jpg").2.2.2.1,
   (predict_target_deterministic "base" "photo.jpg").2.2.1 '7' (by decide)⟩

/-- C10: a `process` job whose handler fails with a no-GPS error produces a
`WorkResult` with `Success = false`, `Message = "No GPS data"` and a nil
`Error`; the summary's error breakdown counts only failed results with a
non-nil error, so such a result never enters the breakdown, while the
result collector's `Update(false)` still counts it in `Failed` (and
`Completed`). -/
theorem nogps_failures_not_in_breakdown (pp : String → String → Option GoError)
    (job : WorkJob) (file inner : String) (rest : List WorkResult)
    (hjt : job.JobType = "process")
    (hpp : pp job.PhotoPath job.DestPath = some (.noGPS file inner)) :
    (processJob pp job).Success = false ∧
    (processJob pp job).Message = "No GPS data" ∧
    (processJob pp job).Error = none ∧
    countedInBreakdown (processJob pp job) = false ∧
    errorBreakdownTypes (processJob pp job :: rest) = errorBreakdownTypes rest ∧
    (∀ pt : ProgressTracker,
      (pt.Update (processJob pp job).Success).Failed = pt.Failed + 1 ∧
      (pt.Update (processJob pp job).Success).Completed = pt.Completed + 1) := by
  have hres : processJob pp job =
      { Job := job, Success := false, Error := none,
        Message := "No GPS data", Duration := 0 } := by
    simp [processJob, hjt, hpp, isNoGPSError]
  refine ⟨by rw [hres], by rw [hres], by rw [hres], by rw [hres]; rfl, ?_, ?_⟩
  · rw [hres]
    simp [errorBreakdownTypes]
  · intro pt
    rw [hres]
    exact ⟨by simp [ProgressTracker.Update], by simp [ProgressTracker.Update]⟩

/-- C10 witness: a concrete no-GPS failure. -/
theorem nogps_failures_not_in_breakdown_witness :
    (processJob (fun _ _ => some (.noGPS "p.jpg" "exif"))
        ⟨"p.jpg", "d", "process"⟩).Success = false ∧
    (processJob (fun _ _ => some (.noGPS "p.jpg" "exif"))
        ⟨"p.jpg", "d", "process"⟩).Message = "No GPS data" ∧
    (processJob (fun _ _ => some (.noGPS "p.jpg" "exif"))
        ⟨"p.jpg", "d", "process"⟩).Error = none := by
  have h := nogps_failures_not_in_breakdown (fun _ _ => some (.noGPS "p.jpg" "exif"))
    ⟨"p.jpg", "d", "process"⟩ "p.jpg" "exif" [] rfl rfl
  exact ⟨h.1, h.2.1, h.2.2.1⟩

end PhotoMeta
